import Mathlib

/-!
# Verification of the video-cut-tool core algorithms

Shallow embedding of the core algorithms of the `video-cut-tool` repository:

* the Clip–Audio Reconciler selection loop of `composeVideosWithOpen`
  (`src/scripts/video_concat.js`, lines 761–849), together with the greedy
  accumulation step and the per-attempt accept/reject evaluation;
* the scene-boundary post-processing of `getSceneChangeFrames` and the
  per-source pipeline of `video_split.js`'s `main`;
* the multi-variant retry of `splitOneSegment` with the `quickFixVideo`
  escalation (`src/scripts/alias_utils.js`);
* the frame-level enhancement fallback of `runEnhance` with its worker pool
  and resumable checkpoint (`src/unnamed/part_002`).

Durations and rates are embedded as rationals (`ℚ`); the JavaScript code
performs the same arithmetic on IEEE doubles, and none of the properties
proved here depend on rounding.  External processes (ffmpeg, ffprobe,
Real-ESRGAN) are modelled by oracles: a boolean or `Except` valued function
recording whether an invocation exits cleanly.
-/

attribute [local semireducible] Rat.add Rat.mul Rat.sub Rat.inv Rat.ofScientific

namespace VideoCutTool

/-! ## Clip–Audio Reconciler (src/scripts/video_concat.js) -/

/-- Reconciler bounds, read from `config.yaml` in `video_concat.js`
(lines 20–27): clip-duration window, rate window, A/V tolerance, and the
maximal shortfall/excess of clips versus audio. -/
structure ConcatConfig where
  minClipDuration : ℚ
  maxClipDuration : ℚ
  minVideoRate : ℚ
  maxVideoRate : ℚ
  maxAVDiff : ℚ
  videoShorterAudioMaxDiff : ℚ
  videoLongerAudioMaxDiff : ℚ
deriving DecidableEq

/-- The default configuration values of `video_concat.js` lines 20–27:
`minVideoRate = 0.95`, `maxVideoRate = 1.05`, `minClipDuration = 1.5`,
`maxClipDuration = 30`, `maxAVDiff = 0.2`,
`videoShorterAudioMaxDiff = videoLongerAudioMaxDiff = 2`. -/
def defaultConfig : ConcatConfig where
  minClipDuration := 3 / 2
  maxClipDuration := 30
  minVideoRate := 19 / 20
  maxVideoRate := 21 / 20
  maxAVDiff := 1 / 5
  videoShorterAudioMaxDiff := 2
  videoLongerAudioMaxDiff := 2

/-- The greedy accumulation loop of `composeVideosWithOpen`
(`video_concat.js` lines 774–782): walk the shuffled indices; skip clips
outside `[minClipDuration, maxClipDuration]`; stop before a clip that would
push the running total past `audioDuration + maxAVDiff`; stop after a clip
that reaches `audioDuration`.  `durOf i` is the probed duration of clip `i`
(`getClipDuration(allClips[i])`); `acc` holds the selected indices in
reverse. -/
def greedyGo (cfg : ConcatConfig) (A : ℚ) (durOf : ℕ → ℚ) :
    List ℕ → List ℕ → ℚ → List ℕ × ℚ
  | [], acc, t => (acc.reverse, t)
  | i :: rest, acc, t =>
    let d := durOf i
    if d < cfg.minClipDuration ∨ d > cfg.maxClipDuration then
      greedyGo cfg A durOf rest acc t
    else if t + d > A + cfg.maxAVDiff then
      (acc.reverse, t)
    else if t + d ≥ A then
      ((i :: acc).reverse, t + d)
    else
      greedyGo cfg A durOf rest (i :: acc) (t + d)

/-- One greedy pass over a shuffled index list, starting from the empty
selection and total `0` (the `tmpClips`/`tmpDur` initialisation). -/
def selectClipsGreedy (cfg : ConcatConfig) (A : ℚ) (durOf : ℕ → ℚ)
    (idxs : List ℕ) : List ℕ × ℚ :=
  greedyGo cfg A durOf idxs [] 0

/-- Outcome of evaluating one candidate selection (`video_concat.js`
lines 784–832).  `rejectShort`/`rejectLong` are the `continue` statements
(clips too short/too long beyond the shorter/longer bound); `noAccept`
falls through to the loop condition without setting `found`;
`accept r cut` sets `videoRates = [r]` and, for the tail-trim fallback,
`tmpClips.cutLastTo = cut`. -/
inductive AttemptOutcome where
  | rejectShort
  | rejectLong
  | noAccept
  | accept (rate : ℚ) (cutLastTo : Option ℚ)
deriving DecidableEq

/-- The accept/reject evaluation of one attempt (`video_concat.js`
lines 784–832), mirroring the branch structure on
`diff = tmpDur − audioDuration`. -/
def evalAttempt (cfg : ConcatConfig) (A : ℚ) (durOf : ℕ → ℚ)
    (sel : List ℕ × ℚ) : AttemptOutcome :=
  let T := sel.2
  let diff := T - A
  if diff < -cfg.maxAVDiff then
    if |diff| > cfg.videoShorterAudioMaxDiff then .rejectShort
    else
      let vRate := T / A
      if cfg.minVideoRate ≤ vRate ∧ vRate ≤ cfg.maxVideoRate then .accept vRate none
      else .noAccept
  else if diff > cfg.maxAVDiff then
    if diff > cfg.videoLongerAudioMaxDiff then .rejectLong
    else
      let vRate := A / T
      if cfg.minVideoRate ≤ vRate ∧ vRate ≤ cfg.maxVideoRate then .accept vRate none
      else
        match sel.1.getLast? with
        | some lastIdx =>
          let lastClipDur := durOf lastIdx
          if lastClipDur - diff ≥ cfg.minClipDuration then
            .accept 1 (some (lastClipDur - diff))
          else .noAccept
        | none => .noAccept
  else .accept 1 none

/-- The mutable state of the selection `do … while` loop
(`video_concat.js` lines 761–763): `selectedClips`, `selectedDur`, the
`cutLastTo` mark carried on the selected clip array, `videoRates` (only
element 0 is ever read), `order` (the duplicate-detection key; `none`
models the initial `undefined`), the `found` flag, and `tryCount`. -/
structure LoopState where
  selectedClips : List ℕ
  selectedDur : ℚ
  selectedCut : Option ℚ
  videoRates : Option ℚ
  order : Option (List ℕ)
  found : Bool
  tryCount : ℕ
deriving DecidableEq

/-- Initial loop state: empty selection, `found = false`, `tryCount = 0`,
`order` and `videoRates` undefined. -/
def initState : LoopState :=
  { selectedClips := []
    selectedDur := 0
    selectedCut := none
    videoRates := none
    order := none
    found := false
    tryCount := 0 }

/-- One iteration of the selection loop body (`video_concat.js`
lines 764–837) on shuffled indices `idxs`.  Note the faithful quirks of the
source: `found` is never reset between iterations, and the
`if (found) { selectedClips = tmpClips; … }` block therefore also fires for
an attempt that did not itself accept (stale `found`), overwriting the
selection while keeping the old `videoRates`. -/
def runBody (cfg : ConcatConfig) (A : ℚ) (durOf : ℕ → ℚ)
    (st : LoopState) (idxs : List ℕ) : LoopState :=
  let sel := selectClipsGreedy cfg A durOf idxs
  let st1 := { st with tryCount := st.tryCount + 1 }
  match evalAttempt cfg A durOf sel with
  | .rejectShort => st1
  | .rejectLong => st1
  | .noAccept =>
    if st1.found then
      { st1 with
        selectedClips := sel.1
        selectedDur := sel.2
        selectedCut := none
        order := some sel.1 }
    else st1
  | .accept r cut =>
    { st1 with
      found := true
      videoRates := some r
      selectedClips := sel.1
      selectedDur := sel.2
      selectedCut := cut
      order := some sel.1 }

/-- The `usedOrders.has(order)` check: `false` while `order` is still `undefined`.
Orders are index lists; the source keys the set by
`selectedClips.map(f => allClips.indexOf(f)).join(',')`, which is injective
on index lists, so list equality models string equality exactly. -/
def orderUsed (used : List (List ℕ)) (st : LoopState) : Bool :=
  match st.order with
  | some o => used.contains o
  | none => false

/-- The `do … while ((!found || usedOrders.has(order)) && tryCount < 100)`
loop.  `shuffles n` is the permutation drawn by `shuffle` on the attempt
with zero-based counter `n`; the fuel starts at 100 and, since `tryCount`
increases by one per iteration, the loop always exits through the condition
check, exactly as the source's `tryCount < 100` bound. -/
def runLoop (cfg : ConcatConfig) (A : ℚ) (durOf : ℕ → ℚ)
    (shuffles : ℕ → List ℕ) (used : List (List ℕ)) :
    ℕ → LoopState → LoopState
  | 0, st => st
  | fuel + 1, st =>
    let st' := runBody cfg A durOf st (shuffles st.tryCount)
    if (st'.found = false ∨ orderUsed used st' = true) ∧ st'.tryCount < 100 then
      runLoop cfg A durOf shuffles used fuel st'
    else st'

/-- Final state of the selection loop for one target video. -/
def selectionFinalState (cfg : ConcatConfig) (A : ℚ) (durOf : ℕ → ℚ)
    (shuffles : ℕ → List ℕ) (used : List (List ℕ)) : LoopState :=
  runLoop cfg A durOf shuffles used 100 initState

/-- One accepted Assembly: ordered selected clip indices, their probed
total, the applied rate (`videoRates[0]`), the optional tail-trim target
length (`cutLastTo`), and the duplicate-detection order key. -/
structure Assembly where
  clips : List ℕ
  total : ℚ
  rate : Option ℚ
  cutLastTo : Option ℚ
  order : Option (List ℕ)
deriving DecidableEq

/-- The selection phase for one target video (`video_concat.js`
lines 761–849): run the loop, then `usedOrders.add(order)`, then either
skip (empty selection) or hand the Assembly to the encode stages.  Returns
the optional Assembly and the updated `usedOrders`. -/
def selectionRun (cfg : ConcatConfig) (A : ℚ) (durOf : ℕ → ℚ)
    (shuffles : ℕ → List ℕ) (used : List (List ℕ)) :
    Option Assembly × List (List ℕ) :=
  let st := selectionFinalState cfg A durOf shuffles used
  let used' := match st.order with
    | some o => o :: used
    | none => used
  if st.selectedClips = [] then (none, used')
  else
    (some { clips := st.selectedClips
            total := st.selectedDur
            rate := st.videoRates
            cutLastTo := st.selectedCut
            order := st.order }, used')

/-- Effective visual duration of an accepted Assembly after the encode
stages of `concatClipsWithAudio` (`video_concat.js` lines 240–328): the
tail-trim replaces the last clip's duration by `cutLastTo`, and
`setpts=(1/vRate)*PTS` multiplies the duration by `1/vRate`. -/
def effectiveDuration (durOf : ℕ → ℚ) (a : Assembly) : ℚ :=
  let base := match a.cutLastTo with
    | some c => (a.clips.dropLast.map durOf).sum + c
    | none => a.total
  match a.rate with
  | some r => base / r
  | none => base

/-! ### C6: the greedy total never exceeds `A + maxAVDiff` -/

/-- Invariant of the greedy loop: if the running total is at most
`A + maxAVDiff`, so is the final total — a clip whose addition would
overshoot ends the loop before being added. -/
theorem greedyGo_total_le (cfg : ConcatConfig) (A : ℚ) (durOf : ℕ → ℚ) :
    ∀ (idxs acc : List ℕ) (t : ℚ), t ≤ A + cfg.maxAVDiff →
      (greedyGo cfg A durOf idxs acc t).2 ≤ A + cfg.maxAVDiff := by
  intro idxs
  induction idxs with
  | nil => intro acc t ht; simpa [greedyGo] using ht
  | cons i rest ih =>
    intro acc t ht
    rw [greedyGo]
    split
    · exact ih acc t ht
    · split
      · simpa using ht
      · rename_i hskip hover
        split
        · simpa using le_of_not_lt hover
        · exact ih (i :: acc) (t + durOf i) (le_of_not_lt hover)

/-- When `diff = T − A` does not exceed `maxAVDiff`, the evaluation takes
only the shorter branch or the immediate accept: it yields `rejectShort`,
`noAccept`, or an `accept` without a trim. -/
theorem evalAttempt_of_diff_le (cfg : ConcatConfig) (A : ℚ) (durOf : ℕ → ℚ)
    (sel : List ℕ × ℚ) (h : ¬ (sel.2 - A > cfg.maxAVDiff)) :
    evalAttempt cfg A durOf sel = .rejectShort ∨
    evalAttempt cfg A durOf sel = .noAccept ∨
    ∃ r, evalAttempt cfg A durOf sel = .accept r none := by
  by_cases h1 : sel.2 - A < -cfg.maxAVDiff
  · by_cases h2 : |sel.2 - A| > cfg.videoShorterAudioMaxDiff
    · left; simp [evalAttempt, h1, h2]
    · by_cases h3 : cfg.minVideoRate ≤ sel.2 / A ∧ sel.2 / A ≤ cfg.maxVideoRate
      · right; right; exact ⟨sel.2 / A, by simp [evalAttempt, h1, h2, h3]⟩
      · right; left; simp [evalAttempt, h1, h2, h3]
  · right; right; exact ⟨1, by simp [evalAttempt, h1, h]⟩

/-- C6: assuming the probed audio duration `A`, `maxAVDiff`, and every
probed clip duration are non-negative, the greedy accumulation keeps the
selected total `T ≤ A + maxAVDiff`, so at evaluation
`diff = T − A ≤ maxAVDiff` on every attempt: the `diff > maxAVDiff` branch
(slow-down rate and tail-trim path) is unreachable — in particular the
evaluation never yields the `rejectLong` outcome or a `cutLastTo` trim. -/
theorem greedy_total_bounded (cfg : ConcatConfig) (A : ℚ) (durOf : ℕ → ℚ)
    (idxs : List ℕ) (hA : 0 ≤ A) (hM : 0 ≤ cfg.maxAVDiff)
    (hdur : ∀ i, 0 ≤ durOf i) :
    (selectClipsGreedy cfg A durOf idxs).2 ≤ A + cfg.maxAVDiff ∧
    ¬ ((selectClipsGreedy cfg A durOf idxs).2 - A > cfg.maxAVDiff) ∧
    evalAttempt cfg A durOf (selectClipsGreedy cfg A durOf idxs) ≠ .rejectLong ∧
    ∀ r c, evalAttempt cfg A durOf (selectClipsGreedy cfg A durOf idxs) ≠
      .accept r (some c) := by
  have hT : (selectClipsGreedy cfg A durOf idxs).2 ≤ A + cfg.maxAVDiff :=
    greedyGo_total_le cfg A durOf idxs [] 0 (by linarith)
  have hdiff : ¬ ((selectClipsGreedy cfg A durOf idxs).2 - A > cfg.maxAVDiff) := by
    intro h; linarith
  have hcases := evalAttempt_of_diff_le cfg A durOf
    (selectClipsGreedy cfg A durOf idxs) hdiff
  refine ⟨hT, hdiff, ?_, ?_⟩
  · rcases hcases with h | h | ⟨r, h⟩ <;> simp [h]
  · intro r c
    rcases hcases with h | h | ⟨r', h⟩ <;> simp [h]

/-- Witness for C6 at a concrete input: audio `10`s, one clip of `10`s. -/
theorem greedy_total_bounded_witness :
    (selectClipsGreedy defaultConfig 10 (fun _ => 10) [0]).2 ≤ 10 + defaultConfig.maxAVDiff := by
  have h := greedy_total_bounded defaultConfig 10 (fun _ => 10) [0]
    (by norm_num) (by norm_num [defaultConfig]) (fun _ => by norm_num)
  exact h.1

/-! ### C1: the stale-`found` acceptance violates the A/V tolerance

In the source, `found` is declared once outside the `do … while` loop and
never reset.  The loop repeats with `found = true` only when the accepted
order duplicates `usedOrders`; if the following attempt falls through
without accepting (e.g. its speed-up rate is out of bounds), the
`if (found)` block still replaces `selectedClips` with the new, rejected
selection while keeping the previous iteration's `videoRates`, and the loop
exits because the new order is fresh.  The assembled video then misses the
tolerance. -/

/-- C1 failing pool: clip 0 lasts 10 s, clip 1 lasts 9 s. -/
def c1DurOf : ℕ → ℚ := fun i => if i = 0 then 10 else 9

/-- C1 shuffle draws: attempt 0 sees `[0, 1]`, later attempts `[1, 0]`. -/
def c1Shuffles : ℕ → List ℕ := fun n => if n = 0 then [0, 1] else [1, 0]

/-- C1 (code bug): with audio `A = 10`, default bounds, and `usedOrders`
already containing order `[0]` (from an earlier Assembly of the batch),
attempt 1 accepts `[0]` (`rate 1.0`) but its order is a duplicate; attempt
2 selects `[1]` (total `9`, `diff = −1`, speed-up rate `0.9` out of
`[0.95, 1.05]`, so the attempt itself accepts nothing) — yet the stale
`found` makes the loop accept clips `[1]` with the stale rate `1.0`.  The
accepted Assembly's effective duration is `9`, off the audio by `1 > 0.2`,
violating `|effective − A| ≤ maxAVDiff`. -/
theorem composeAccept_staleRate_breaks_tolerance :
    (selectionRun defaultConfig 10 c1DurOf c1Shuffles [[0]]).1 =
      some { clips := [1], total := 9, rate := some 1, cutLastTo := none,
             order := some [1] } ∧
    ¬ (|effectiveDuration c1DurOf
          { clips := [1], total := 9, rate := some 1, cutLastTo := none,
            order := some [1] } - 10| ≤ defaultConfig.maxAVDiff) := by
  constructor
  · decide
  · decide

/-! ### Loop invariants of the selection `do … while` loop -/

/-- Invariant carried by the selection loop state: a non-empty selection
implies `found`; `found` implies `order` and `videoRates` are defined, the
rate being `1.0` or within `[minVideoRate, maxVideoRate]`; and a `cutLastTo`
mark was produced by the tail-trim fallback of the very iteration that
stored the current selection, with all its guards. -/
def StInv (cfg : ConcatConfig) (A : ℚ) (durOf : ℕ → ℚ) (st : LoopState) : Prop :=
  (st.selectedClips ≠ [] → st.found = true) ∧
  (st.found = true → ∃ o, st.order = some o) ∧
  (st.found = true → ∃ r, st.videoRates = some r ∧
    (r = 1 ∨ (cfg.minVideoRate ≤ r ∧ r ≤ cfg.maxVideoRate))) ∧
  (∀ c, st.selectedCut = some c →
    st.videoRates = some 1 ∧ cfg.minClipDuration ≤ c ∧
    st.selectedDur - A > cfg.maxAVDiff ∧
    ¬ (cfg.minVideoRate ≤ A / st.selectedDur ∧ A / st.selectedDur ≤ cfg.maxVideoRate) ∧
    ∃ last, st.selectedClips.getLast? = some last ∧
      c = durOf last - (st.selectedDur - A))

/-- Inversion of an accepting evaluation: every accepted rate is either
`1.0` or was explicitly bounds-checked, and an accepted trim carries all
the guards of the tail-trim fallback. -/
theorem evalAttempt_accept_inv (cfg : ConcatConfig) (A : ℚ) (durOf : ℕ → ℚ)
    (sel : List ℕ × ℚ) (r : ℚ) (cut : Option ℚ)
    (h : evalAttempt cfg A durOf sel = .accept r cut) :
    (r = 1 ∨ (cfg.minVideoRate ≤ r ∧ r ≤ cfg.maxVideoRate)) ∧
    (∀ c, cut = some c →
      r = 1 ∧ cfg.minClipDuration ≤ c ∧
      sel.2 - A > cfg.maxAVDiff ∧
      ¬ (cfg.minVideoRate ≤ A / sel.2 ∧ A / sel.2 ≤ cfg.maxVideoRate) ∧
      ∃ last, sel.1.getLast? = some last ∧ c = durOf last - (sel.2 - A)) := by
  by_cases h1 : sel.2 - A < -cfg.maxAVDiff
  · by_cases h2 : |sel.2 - A| > cfg.videoShorterAudioMaxDiff
    · simp [evalAttempt, h1, h2] at h
    · by_cases h3 : cfg.minVideoRate ≤ sel.2 / A ∧ sel.2 / A ≤ cfg.maxVideoRate
      · simp [evalAttempt, h1, h2, h3] at h
        obtain ⟨hr, hcut⟩ := h
        subst hr
        refine ⟨Or.inr h3, ?_⟩
        intro c hc
        rw [← hcut] at hc
        simp at hc
      · simp [evalAttempt, h1, h2, h3] at h
  · by_cases h4 : sel.2 - A > cfg.maxAVDiff
    · by_cases h5 : sel.2 - A > cfg.videoLongerAudioMaxDiff
      · simp [evalAttempt, h1, h4, h5] at h
      · by_cases h6 : cfg.minVideoRate ≤ A / sel.2 ∧ A / sel.2 ≤ cfg.maxVideoRate
        · simp [evalAttempt, h1, h4, h5, h6] at h
          obtain ⟨hr, hcut⟩ := h
          subst hr
          refine ⟨Or.inr h6, ?_⟩
          intro c hc
          rw [← hcut] at hc
          simp at hc
        · cases hl : sel.1.getLast? with
          | none => simp [evalAttempt, h1, h4, h5, h6, hl] at h
          | some lastIdx =>
            by_cases h7 : durOf lastIdx - (sel.2 - A) ≥ cfg.minClipDuration
            · simp [evalAttempt, h1, h4, h5, h6, hl, h7] at h
              obtain ⟨hr, hcut⟩ := h
              subst hr
              refine ⟨Or.inl rfl, ?_⟩
              intro c hc
              rw [← hcut] at hc
              obtain rfl : durOf lastIdx - (sel.2 - A) = c := by
                simpa using hc
              exact ⟨rfl, h7, h4, h6, lastIdx, rfl, rfl⟩
            · simp [evalAttempt, h1, h4, h5, h6, hl, h7] at h
    · simp [evalAttempt, h1, h4] at h
      obtain ⟨hr, hcut⟩ := h
      subst hr
      refine ⟨Or.inl rfl, ?_⟩
      intro c hc
      rw [← hcut] at hc
      simp at hc

/-- One loop-body iteration preserves the invariant. -/
theorem runBody_inv (cfg : ConcatConfig) (A : ℚ) (durOf : ℕ → ℚ)
    (st : LoopState) (idxs : List ℕ) (h : StInv cfg A durOf st) :
    StInv cfg A durOf (runBody cfg A durOf st idxs) := by
  simp only [runBody]
  split
  · exact h
  · exact h
  · split
    · rename_i hf
      have hf' : st.found = true := hf
      exact ⟨fun _ => hf', fun _ => ⟨_, rfl⟩, fun _ => h.2.2.1 hf',
        fun c hc => by simp at hc⟩
    · exact h
  · rename_i r cut hev
    obtain ⟨hrate, hcut⟩ := evalAttempt_accept_inv cfg A durOf _ r cut hev
    refine ⟨fun _ => rfl, fun _ => ⟨_, rfl⟩, fun _ => ⟨r, rfl, hrate⟩, ?_⟩
    intro c hc
    obtain ⟨hr1, hmin, hdiff, hbounds, last, hlast, hc'⟩ := hcut c hc
    subst hr1
    exact ⟨rfl, hmin, hdiff, hbounds, last, hlast, hc'⟩

/-- The loop preserves the invariant. -/
theorem runLoop_inv (cfg : ConcatConfig) (A : ℚ) (durOf : ℕ → ℚ)
    (shuffles : ℕ → List ℕ) (used : List (List ℕ)) :
    ∀ (fuel : ℕ) (st : LoopState), StInv cfg A durOf st →
      StInv cfg A durOf (runLoop cfg A durOf shuffles used fuel st) := by
  intro fuel
  induction fuel with
  | zero => intro st h; simpa [runLoop] using h
  | succ n ih =>
    intro st h
    simp only [runLoop]
    split
    · exact ih _ (runBody_inv cfg A durOf st _ h)
    · exact runBody_inv cfg A durOf st _ h

/-- The initial loop state satisfies the invariant. -/
theorem initState_inv (cfg : ConcatConfig) (A : ℚ) (durOf : ℕ → ℚ) :
    StInv cfg A durOf initState := by
  refine ⟨fun h => absurd rfl h, ?_, ?_, ?_⟩ <;> simp [initState]

/-! ### C5: accepted rates are bounded, trims only from the guarded fallback -/

/-- C5: in every accepted Assembly the applied rate is `1.0` or lies in
`[minVideoRate, maxVideoRate]`; and a `cutLastTo` trim is present only when
the accepting attempt was in the `diff > maxAVDiff` branch with slow-down
rate `A/T` out of bounds and the last selected segment's duration minus
`diff` still at least `minClipDuration` — the trim target being exactly
that duration minus `diff`, with rate `1.0`. -/
theorem composeAccept_rate_in_bounds_and_trim_guard
    (cfg : ConcatConfig) (A : ℚ) (durOf : ℕ → ℚ) (shuffles : ℕ → List ℕ)
    (used : List (List ℕ)) (a : Assembly)
    (hacc : (selectionRun cfg A durOf shuffles used).1 = some a) :
    (∃ r, a.rate = some r ∧
      (r = 1 ∨ (cfg.minVideoRate ≤ r ∧ r ≤ cfg.maxVideoRate))) ∧
    (∀ c, a.cutLastTo = some c →
      a.rate = some 1 ∧ cfg.minClipDuration ≤ c ∧
      a.total - A > cfg.maxAVDiff ∧
      ¬ (cfg.minVideoRate ≤ A / a.total ∧ A / a.total ≤ cfg.maxVideoRate) ∧
      ∃ last, a.clips.getLast? = some last ∧ c = durOf last - (a.total - A)) := by
  have hinv : StInv cfg A durOf (selectionFinalState cfg A durOf shuffles used) :=
    runLoop_inv cfg A durOf shuffles used 100 initState (initState_inv cfg A durOf)
  unfold selectionRun at hacc
  by_cases hempty : (selectionFinalState cfg A durOf shuffles used).selectedClips = []
  · simp [hempty] at hacc
  · simp only [hempty, if_false] at hacc
    obtain rfl : _ = a := Option.some_injective _ hacc
    obtain ⟨h1, h2, h3, h4⟩ := hinv
    have hfound := h1 hempty
    refine ⟨h3 hfound, ?_⟩
    intro c hc
    obtain ⟨hr, hmin, hdiff, hbounds, last, hlast, hc'⟩ := h4 c hc
    exact ⟨hr, hmin, hdiff, hbounds, last, hlast, hc'⟩

/-- A pool where every clip is probed at `10` s. -/
def constTenDurOf : ℕ → ℚ := fun _ => 10

/-- Shuffle draws that always produce the singleton permutation `[0]`. -/
def singletonShuffles : ℕ → List ℕ := fun _ => [0]

/-- The Assembly accepted from `constTenDurOf`/`singletonShuffles` with
audio duration `10`: clips `[0]`, total `10`, rate `1.0`, no trim. -/
def acceptedTenAssembly : Assembly :=
  { clips := [0], total := 10, rate := some 1, cutLastTo := none,
    order := some [0] }

/-- Witness for C5: with audio `10` s, a single `10` s clip and no used
orders, the first attempt accepts `[0]` with rate `1.0`. -/
theorem composeAccept_rate_in_bounds_witness :
    ∃ r, acceptedTenAssembly.rate = some r ∧
      (r = 1 ∨ (defaultConfig.minVideoRate ≤ r ∧ r ≤ defaultConfig.maxVideoRate)) :=
  (composeAccept_rate_in_bounds_and_trim_guard defaultConfig 10 constTenDurOf
    singletonShuffles [] acceptedTenAssembly (by decide)).1

/-! ### C2: order de-duplication holds before the ceiling, fails at it -/

/-- The loop body increments `tryCount` by exactly one. -/
theorem runBody_tryCount (cfg : ConcatConfig) (A : ℚ) (durOf : ℕ → ℚ)
    (st : LoopState) (idxs : List ℕ) :
    (runBody cfg A durOf st idxs).tryCount = st.tryCount + 1 := by
  simp only [runBody]
  cases evalAttempt cfg A durOf (selectClipsGreedy cfg A durOf idxs) with
  | rejectShort => rfl
  | rejectLong => rfl
  | noAccept =>
    by_cases hf : st.found = true
    · simp [hf]
    · simp only [Bool.not_eq_true] at hf
      simp [hf]
  | accept r cut => rfl

/-- If the loop exits with `tryCount < 100`, it exited through the
condition: `found` holds and the order is not in `usedOrders`. -/
theorem runLoop_exit (cfg : ConcatConfig) (A : ℚ) (durOf : ℕ → ℚ)
    (shuffles : ℕ → List ℕ) (used : List (List ℕ)) :
    ∀ (fuel : ℕ) (st : LoopState), st.tryCount + fuel = 100 →
      (runLoop cfg A durOf shuffles used fuel st).tryCount < 100 →
      (runLoop cfg A durOf shuffles used fuel st).found = true ∧
        orderUsed used (runLoop cfg A durOf shuffles used fuel st) = false := by
  intro fuel
  induction fuel with
  | zero =>
    intro st h hlt
    simp only [runLoop] at hlt
    omega
  | succ n ih =>
    intro st h
    simp only [runLoop]
    split
    · intro hlt
      refine ih _ ?_ hlt
      rw [runBody_tryCount]
      omega
    · rename_i hcond
      intro hlt
      have hnot : ¬ ((runBody cfg A durOf st (shuffles st.tryCount)).found = false ∨
          orderUsed used (runBody cfg A durOf st (shuffles st.tryCount)) = true) :=
        fun hp => hcond ⟨hp, hlt⟩
      push_neg at hnot
      obtain ⟨hn1, hn2⟩ := hnot
      constructor
      · cases hfd : (runBody cfg A durOf st (shuffles st.tryCount)).found with
        | false => exact absurd hfd hn1
        | true => rfl
      · cases hor : orderUsed used (runBody cfg A durOf st (shuffles st.tryCount)) with
        | false => rfl
        | true => exact absurd hor hn2

/-- C2 as amended: every Assembly whose selection loop exits before the
100-attempt ceiling carries an order key not in `usedOrders`, so it cannot
duplicate any previously accepted Assembly of the batch. -/
theorem composeAccept_beforeCeiling_freshOrder
    (cfg : ConcatConfig) (A : ℚ) (durOf : ℕ → ℚ) (shuffles : ℕ → List ℕ)
    (used : List (List ℕ)) (a : Assembly)
    (hacc : (selectionRun cfg A durOf shuffles used).1 = some a)
    (hlt : (selectionFinalState cfg A durOf shuffles used).tryCount < 100) :
    ∃ o, a.order = some o ∧ used.contains o = false := by
  have hinv : StInv cfg A durOf (selectionFinalState cfg A durOf shuffles used) :=
    runLoop_inv cfg A durOf shuffles used 100 initState (initState_inv cfg A durOf)
  have hexit := runLoop_exit cfg A durOf shuffles used 100 initState
    (by simp [initState]) hlt
  unfold selectionRun at hacc
  by_cases hempty : (selectionFinalState cfg A durOf shuffles used).selectedClips = []
  · simp [hempty] at hacc
  · simp only [hempty, if_false] at hacc
    obtain rfl : _ = a := Option.some_injective _ hacc
    obtain ⟨h1, h2, -, -⟩ := hinv
    obtain ⟨o, ho⟩ := h2 (h1 hempty)
    refine ⟨o, ho, ?_⟩
    have hused := hexit.2
    unfold selectionFinalState at ho
    rw [orderUsed, ho] at hused
    exact hused

/-- Witness for the amended C2: the concrete single-clip run accepts on
attempt 1 (before the ceiling) with the fresh order `[0]`. -/
theorem composeAccept_beforeCeiling_freshOrder_witness :
    ∃ o, acceptedTenAssembly.order = some o ∧
      ([] : List (List ℕ)).contains o = false :=
  composeAccept_beforeCeiling_freshOrder defaultConfig 10 constTenDurOf
    singletonShuffles [] acceptedTenAssembly (by decide) (by decide)

/-- C2 counterexample: with audio `10` s and a pool of a single `10` s
clip, the first target video accepts order `[0]`; the second target video
can only ever draw the same order, retries to the 100-attempt ceiling, and
the loop then exits with `found` still set — the duplicate order `[0]` is
accepted anyway instead of being skipped, so two accepted Assemblies of one
batch share the identical ordered selection. -/
theorem composeAccept_atCeiling_duplicateOrder :
    (selectionRun defaultConfig 10 constTenDurOf singletonShuffles []).1 =
      some acceptedTenAssembly ∧
    (selectionRun defaultConfig 10 constTenDurOf singletonShuffles []).2 = [[0]] ∧
    (selectionRun defaultConfig 10 constTenDurOf singletonShuffles [[0]]).1 =
      some acceptedTenAssembly ∧
    ([[0]] : List (List ℕ)).contains [0] = true := by
  refine ⟨by decide, by decide, by decide, by decide⟩

/-! ### C3: the 42 s audio / nine 5 s segments scenario -/

/-- The scenario pool: every clip is probed at `5` s (nine of them, so the
shuffled index lists have length 9). -/
def nineFiveDurOf : ℕ → ℚ := fun _ => 5

/-- In the scenario, the greedy loop starting from a total of `5·m`
(`m ≤ 8` clips already taken, at least `8 − m` indices left) always ends at
total `40` after taking `8 − m` further clips: the ninth clip would push
the total to `45 > 42.2`, so it is never taken. -/
theorem greedyGo_nineFive (idxs : List ℕ) :
    ∀ (acc : List ℕ) (m : ℕ), m ≤ 8 → 8 ≤ m + idxs.length →
      (greedyGo defaultConfig 42 nineFiveDurOf idxs acc (5 * m)).2 = 40 ∧
      (greedyGo defaultConfig 42 nineFiveDurOf idxs acc (5 * m)).1.length
        = acc.length + (8 - m) := by
  induction idxs with
  | nil =>
    intro acc m hm8 hlen
    simp only [List.length_nil, Nat.add_zero] at hlen
    have hm : m = 8 := le_antisymm hm8 hlen
    subst hm
    simp only [greedyGo]
    constructor
    · push_cast
      norm_num
    · simp
  | cons i rest ih =>
    intro acc m hm8 hlen
    simp only [greedyGo]
    rw [if_neg (by norm_num [nineFiveDurOf, defaultConfig])]
    by_cases hm : m = 8
    · subst hm
      rw [if_pos (by push_cast; norm_num [nineFiveDurOf, defaultConfig])]
      constructor
      · push_cast
        norm_num
      · simp
    · have hm7Q : ((m : ℚ)) ≤ 7 := by
        have : m ≤ 7 := by omega
        exact_mod_cast this
      rw [if_neg (by norm_num [nineFiveDurOf, defaultConfig]; linarith)]
      rw [if_neg (by norm_num [nineFiveDurOf]; linarith)]
      have harg : (5 : ℚ) * m + nineFiveDurOf i = 5 * ((m + 1 : ℕ) : ℚ) := by
        norm_num [nineFiveDurOf]
        ring
      rw [harg]
      simp only [List.length_cons] at hlen
      obtain ⟨hT, hL⟩ := ih (i :: acc) (m + 1) (by omega) (by omega)
      refine ⟨hT, ?_⟩
      rw [hL]
      simp only [List.length_cons]
      omega

/-- Every 9-index shuffle of the scenario pool greedily selects exactly 8
clips totalling `40` s. -/
theorem nineFive_select (idxs : List ℕ) (hlen : idxs.length = 9) :
    (selectClipsGreedy defaultConfig 42 nineFiveDurOf idxs).2 = 40 ∧
    (selectClipsGreedy defaultConfig 42 nineFiveDurOf idxs).1.length = 8 := by
  have h := greedyGo_nineFive idxs [] 0 (by omega) (by omega)
  norm_num at h
  exact ⟨h.1, h.2⟩

/-- Evaluating a 40 s selection against the 42 s audio: `diff = −2`, within
`videoShorterAudioMaxDiff = 2`, and the speed-up rate `40/42 = 20/21`
(≈ 0.952) lies inside the default `[0.95, 1.05]`, so the attempt accepts
with rate `20/21` and no trim. -/
theorem nineFive_eval (sel : List ℕ × ℚ) (hT : sel.2 = 40) :
    evalAttempt defaultConfig 42 nineFiveDurOf sel = .accept (20 / 21) none := by
  have h1 : sel.2 - 42 < -defaultConfig.maxAVDiff := by
    rw [hT]; norm_num [defaultConfig]
  have h2 : ¬ (|sel.2 - 42| > defaultConfig.videoShorterAudioMaxDiff) := by
    rw [hT]; norm_num [defaultConfig]
  have h3 : defaultConfig.minVideoRate ≤ sel.2 / 42 ∧
      sel.2 / 42 ≤ defaultConfig.maxVideoRate := by
    rw [hT]; norm_num [defaultConfig]
  have h4 : sel.2 / 42 = 20 / 21 := by rw [hT]; norm_num
  simp [evalAttempt, h1, h2, h3, h4]
  constructor <;> norm_num [defaultConfig]

/-- The scenario invariant: once `found` is set, the stored selection is 8
clips, total `40`, rate `20/21`, and no trim. -/
def NineInv (st : LoopState) : Prop :=
  (st.selectedClips ≠ [] → st.found = true) ∧
  (st.found = true → st.videoRates = some (20 / 21) ∧
    st.selectedClips.length = 8 ∧ st.selectedDur = 40 ∧ st.selectedCut = none)

/-- One scenario loop-body iteration establishes and preserves the
scenario invariant. -/
theorem runBody_nineFive (st : LoopState) (idxs : List ℕ)
    (hlen : idxs.length = 9) :
    NineInv (runBody defaultConfig 42 nineFiveDurOf st idxs) := by
  have hsel := nineFive_select idxs hlen
  have hev := nineFive_eval (selectClipsGreedy defaultConfig 42 nineFiveDurOf idxs)
    hsel.1
  simp only [runBody, hev]
  exact ⟨fun _ => rfl, fun _ => ⟨rfl, hsel.2, hsel.1, rfl⟩⟩

/-- The scenario loop preserves the scenario invariant. -/
theorem runLoop_nineFive (shuffles : ℕ → List ℕ)
    (hs : ∀ n, (shuffles n).length = 9) (used : List (List ℕ)) :
    ∀ (fuel : ℕ) (st : LoopState), NineInv st →
      NineInv (runLoop defaultConfig 42 nineFiveDurOf shuffles used fuel st) := by
  intro fuel
  induction fuel with
  | zero => intro st h; simpa [runLoop] using h
  | succ n ih =>
    intro st h
    simp only [runLoop]
    split
    · exact ih _ (runBody_nineFive st _ (hs st.tryCount))
    · exact runBody_nineFive st _ (hs st.tryCount)

/-- C3 as amended: in the scenario (audio 42.0 s, `maxAVDiff = 0.2`, pool
of nine 5 s segments, default bounds) every accepted Assembly consists of
exactly 8 segments totalling 40.0 s with rate `40/42 = 20/21 ≈ 0.952` and
no trim; a 9-segment selection never occurs because the greedy accumulation
stops before the total can exceed `42.2` s. -/
theorem composeScenario42_accepts_8x5_rate20over21
    (shuffles : ℕ → List ℕ) (hs : ∀ n, (shuffles n).length = 9)
    (used : List (List ℕ)) (a : Assembly)
    (hacc : (selectionRun defaultConfig 42 nineFiveDurOf shuffles used).1 = some a) :
    a.clips.length = 8 ∧ a.total = 40 ∧ a.rate = some (20 / 21) ∧
      a.cutLastTo = none := by
  have hinv : NineInv (selectionFinalState defaultConfig 42 nineFiveDurOf shuffles used) :=
    runLoop_nineFive shuffles hs used 100 initState
      ⟨fun hne => absurd rfl hne, by simp [initState]⟩
  unfold selectionRun at hacc
  by_cases hempty :
      (selectionFinalState defaultConfig 42 nineFiveDurOf shuffles used).selectedClips = []
  · simp [hempty] at hacc
  · simp only [hempty, if_false] at hacc
    obtain rfl : _ = a := Option.some_injective _ hacc
    obtain ⟨hrate, hlen8, hdur, hcut⟩ := hinv.2 (hinv.1 hempty)
    exact ⟨hlen8, hdur, hrate, hcut⟩

/-- A deterministic scenario shuffle: always the identity permutation of
the nine pool indices. -/
def nineShufflesId : ℕ → List ℕ := fun _ => [0, 1, 2, 3, 4, 5, 6, 7, 8]

/-- The Assembly accepted from the identity scenario shuffle. -/
def nineFiveAssembly : Assembly :=
  { clips := [0, 1, 2, 3, 4, 5, 6, 7], total := 40, rate := some (20 / 21),
    cutLastTo := none, order := some [0, 1, 2, 3, 4, 5, 6, 7] }

/-- C3 counterexample: the scenario's accepted attempt selects 8 segments
totalling 40.0 s, but its rate is `20/21 ≈ 0.952`, not the claimed `1.05`
(`21/20`), and the selection does not have 9 segments either — neither of
the claim's two outcomes occurs. -/
theorem composeScenario42_rate_not_1_05 :
    (selectionRun defaultConfig 42 nineFiveDurOf nineShufflesId []).1 =
      some nineFiveAssembly ∧
    ¬ ((20 : ℚ) / 21 = 21 / 20) ∧
    ¬ (nineFiveAssembly.clips.length = 9) := by
  refine ⟨by decide, by decide, by decide⟩

/-- Witness for the amended C3 at the identity shuffle. -/
theorem composeScenario42_accepts_8x5_witness :
    nineFiveAssembly.clips.length = 8 ∧ nineFiveAssembly.total = 40 ∧
      nineFiveAssembly.rate = some (20 / 21) ∧
      nineFiveAssembly.cutLastTo = none :=
  composeScenario42_accepts_8x5_rate20over21 nineShufflesId (fun _ => rfl) []
    nineFiveAssembly (by decide)

/-! ## Scene Segmenter (src/scripts/alias_utils.js, src/scripts/video_split.js) -/

/-- The tail of `getSceneChangeFrames` (`alias_utils.js` lines 247–254):
`times` is the list of `pts_time:` values parsed in stream order from the
ffmpeg diagnostic output (the regex `pts_time:([\d.]+)` only matches digits
and dots, so every parsed value is non-negative); the source then prepends
`0` whenever `times[0] !== 0`, which also covers the empty parse. -/
def sceneChangeTimes (times : List ℚ) : List ℚ :=
  match times with
  | [] => [0]
  | t :: rest => if t = 0 then t :: rest else 0 :: t :: rest

/-- Final disposition of one SourceVideo in `video_split.js`'s `main`
(lines 196–295): skipped because clips already exist, bucketed as
detection-failed (`检测失败`), moved aside with no cuts (`无转场点`),
bucketed as split-failed (`分割失败`), or archived as done (`已分析`)
with the produced segment indices. -/
inductive FileOutcome where
  | skippedExisting
  | detectionFailed
  | noScene
  | splitFailed
  | done (clips : List ℕ)
deriving DecidableEq

/-- Oracles for the external steps of one source's segmentation run:
`detect1` is `getSceneChangeFrames` on the original file; `fixDetect` the
`quickFixVideo` escalation after a detection failure; `detect2` the
re-detection on the repaired file; `split1` the per-segment success
predicate of `splitVideoToClipsWithAlias` (which swallows individual
`splitOneSegment` failures and continues, so it only throws as a whole,
modelled by `.error`); `fixSplit`/`split2` the escalation and retry after
such a wholesale throw. -/
structure SegEnv where
  hasExistingClips : Bool
  detect1 : Except Unit (List ℚ)
  fixDetect : Except Unit Unit
  detect2 : Except Unit (List ℚ)
  split1 : Except Unit (ℕ → Bool)
  fixSplit : Except Unit Unit
  split2 : Except Unit (ℕ → Bool)

/-- The `splitVideoToClipsWithAlias` loop (`alias_utils.js` lines 313–335): one cut
per adjacent boundary pair (`sceneFrames.length − 1` segments); a failed
`splitOneSegment` is logged and skipped (`继续下一个片段`), so the returned
clip list is the subsequence of segment indices whose cut succeeded. -/
def clipsFrom (sceneFrames : List ℚ) (segOk : ℕ → Bool) : List ℕ :=
  (List.range (sceneFrames.length - 1)).filter segOk

/-- Detection with quick-fix escalation (`video_split.js` lines 209–230):
run detection; on failure run `quickFixVideo` and re-detect; a failure of
the fix or of the re-detection yields the detection-failed bucket. -/
def detectResult (env : SegEnv) : Except Unit (List ℚ) :=
  match env.detect1 with
  | .ok fs => .ok fs
  | .error _ =>
    match env.fixDetect with
    | .error _ => .error ()
    | .ok _ => env.detect2

/-- The per-source pipeline of `video_split.js`'s `main` (lines 196–295):
skip sources with existing clips; detection (with escalation), the
`length < 2` no-cuts check, splitting (with escalation on a wholesale
throw), then archival as done with whatever clips were produced. -/
def processFile (env : SegEnv) : FileOutcome :=
  if env.hasExistingClips then .skippedExisting
  else
    match detectResult env with
    | .error _ => .detectionFailed
    | .ok sceneFrames =>
      if sceneFrames.length < 2 then .noScene
      else
        match env.split1 with
        | .ok p => .done (clipsFrom sceneFrames p)
        | .error _ =>
          match env.fixSplit with
          | .error _ => .splitFailed
          | .ok _ =>
            match env.split2 with
            | .error _ => .splitFailed
            | .ok p => .done (clipsFrom sceneFrames p)

/-- Segment indices produced for a source: empty unless it finished. -/
def outcomeClips : FileOutcome → List ℕ
  | .done c => c
  | _ => []

/-! ### C7: boundaries start at 0, are monotone, and no-cut sources skip -/

/-- C7: the boundary list starts with `0` (prepended whenever the first
parsed timestamp is not `0`, including the empty parse) and — given that
the parsed timestamps arrive in non-decreasing stream order and are
non-negative, as the `pts_time:([\d.]+)` matches are — is monotonically
non-decreasing; and whenever the resulting list has fewer than 2 entries
the segmenter moves the source to the no-cuts folder and produces zero
segments for it, without raising an error. -/
theorem sceneChangeTimes_zero_monotone_and_noCut_skip :
    (∀ times : List ℚ, List.Chain' (· ≤ ·) times → (∀ t ∈ times, 0 ≤ t) →
      (sceneChangeTimes times).head? = some 0 ∧
      List.Chain' (· ≤ ·) (sceneChangeTimes times)) ∧
    (∀ (env : SegEnv) (frames : List ℚ),
      env.hasExistingClips = false →
      (env.detect1 = .ok frames ∨
        (env.detect1 = .error () ∧ env.fixDetect = .ok () ∧
          env.detect2 = .ok frames)) →
      frames.length < 2 →
      processFile env = .noScene ∧ outcomeClips (processFile env) = []) := by
  constructor
  · intro times hchain hnn
    cases times with
    | nil => constructor <;> simp [sceneChangeTimes]
    | cons t rest =>
      by_cases ht : t = 0
      · subst ht
        simpa [sceneChangeTimes] using hchain
      · refine ⟨by simp [sceneChangeTimes, ht], ?_⟩
        simp only [sceneChangeTimes, ht, if_false]
        rw [List.chain'_cons]
        exact ⟨hnn t (List.mem_cons_self t rest), hchain⟩
  · intro env frames hclips hdet hlen
    have hres : detectResult env = .ok frames := by
      rcases hdet with h | ⟨h1, h2, h3⟩
      · simp [detectResult, h]
      · simp [detectResult, h1, h2, h3]
    have : processFile env = .noScene := by
      simp [processFile, hclips, hres, hlen]
    exact ⟨this, by simp [this, outcomeClips]⟩

/-- Witness for C7: a parse of `[0.5, 0.75]` (non-decreasing, non-negative)
and an environment whose detection finds the single boundary `[0]`. -/
theorem sceneChangeTimes_zero_monotone_witness :
    ((sceneChangeTimes [1 / 2, 3 / 4]).head? = some 0 ∧
      List.Chain' (· ≤ ·) (sceneChangeTimes [1 / 2, 3 / 4])) ∧
    processFile
      { hasExistingClips := false, detect1 := .ok [0],
        fixDetect := .error (), detect2 := .error (),
        split1 := .error (), fixSplit := .error (),
        split2 := .error () } = .noScene :=
  ⟨(sceneChangeTimes_zero_monotone_and_noCut_skip).1 [1 / 2, 3 / 4]
      (by norm_num) (by norm_num),
    ((sceneChangeTimes_zero_monotone_and_noCut_skip).2
      { hasExistingClips := false, detect1 := .ok [0],
        fixDetect := .error (), detect2 := .error (),
        split1 := .error (), fixSplit := .error (),
        split2 := .error () } [0] rfl (Or.inl rfl) (by norm_num)).1⟩

/-! ### C9: per-segment failure is swallowed, source archived as done -/

/-- A source whose detection finds boundaries `[0, 1, 2]` (two segments)
and whose second segment cut persistently fails (the per-segment retries
and quick-fix inside `splitOneSegment` all exhausted). -/
def segLossEnv : SegEnv :=
  { hasExistingClips := false
    detect1 := .ok [0, 1, 2]
    fixDetect := .error ()
    detect2 := .error ()
    split1 := .ok (fun i => i == 0)
    fixSplit := .error ()
    split2 := .error () }

/-- C9 counterexample: with two segments of which only segment `0` cuts
successfully, the source is archived as done with the partial clip list
`[0]` — it leaves the pending queue without all segments accepted, and is
not bucketed as split-failed. -/
theorem splitFile_lossySet_archived_not_bucketed :
    processFile segLossEnv = .done [0] ∧
    (List.range (([0, 1, 2] : List ℚ).length - 1)).length = 2 ∧
    processFile segLossEnv ≠ .splitFailed := by
  refine ⟨by decide, by decide, by decide⟩

/-- C9 as amended: per-segment cut failures inside
`splitVideoToClipsWithAlias` are logged and skipped, so whenever the split
pass itself returns (rather than throwing as a whole), the source is
archived as done with exactly the successfully cut subset of segments —
the split-failed bucket is reached only when the split pass throws
wholesale and the quick-fix retry also fails. -/
theorem splitFile_perSegmentFailure_archives_done
    (env : SegEnv) (frames : List ℚ) (p : ℕ → Bool)
    (h1 : env.hasExistingClips = false)
    (h2 : env.detect1 = .ok frames)
    (h3 : 2 ≤ frames.length)
    (h4 : env.split1 = .ok p) :
    processFile env = .done (clipsFrom frames p) := by
  have hres : detectResult env = .ok frames := by simp [detectResult, h2]
  have hlen : ¬ (frames.length < 2) := by omega
  simp [processFile, h1, hres, hlen, h4]

/-- Witness for the amended C9 at the concrete partial-failure source. -/
theorem splitFile_perSegmentFailure_archives_done_witness :
    processFile segLossEnv = .done (clipsFrom [0, 1, 2] (fun i => i == 0)) :=
  splitFile_perSegmentFailure_archives_done segLossEnv [0, 1, 2]
    (fun i => i == 0) rfl rfl (by norm_num) rfl

/-! ### C8: `splitOneSegment` variant ordering and quick-fix retry -/

/-- The four candidate ffmpeg command variants of `splitOneSegment`
(`alias_utils.js` lines 135–193): `copyFast` the stream-copy fast seek,
`varA` the standard `-i … -ss -t` re-encode, `varB` the `-ss` before `-i`
re-encode, `varC` the `-to` end-time re-encode. -/
inductive SplitVariant where
  | copyFast
  | varA
  | varB
  | varC
deriving DecidableEq, BEq

/-- Which file a variant is run against: the original input or the file
repaired by `quickFixVideo`. -/
inductive SplitInput where
  | original
  | repaired
deriving DecidableEq, BEq

/-- The primary attempt order (`alias_utils.js` lines 190–193):
`copyFast` first iff `fastSplitCopy`; then `B, A, C` iff `fastSeekFirst`,
else `A, B, C`. -/
def primaryVariants (fastSplitCopy fastSeekFirst : Bool) : List SplitVariant :=
  (if fastSplitCopy then [.copyFast] else []) ++
    (if fastSeekFirst then [.varB, .varA, .varC] else [.varA, .varB, .varC])

/-- The post-quick-fix retry order (`alias_utils.js` lines 206–214):
`copyFast` first iff `fastSplitCopy`; then `B, A` iff `fastSeekFirst`,
else `A, B` — the `-to` variant `C` is not retried. -/
def fixedVariants (fastSplitCopy fastSeekFirst : Bool) : List SplitVariant :=
  (if fastSplitCopy then [.copyFast] else []) ++
    (if fastSeekFirst then [.varB, .varA] else [.varA, .varB])

/-- Result of `quickFixVideo` (`alias_utils.js` lines 93–128): the remux
copy (verified by ffprobe), else the minimal re-encode (verified), else a
thrown error. -/
inductive FixOutcome where
  | remuxed
  | reencoded
  | failed
deriving DecidableEq

/-- Oracles for one segment cut: whether each ffmpeg variant invocation
exits cleanly on each input, and whether the two quick-fix stages (remux
plus probe verification, re-encode plus probe verification) succeed. -/
structure SplitExecEnv where
  runOk : SplitInput → SplitVariant → Bool
  fixRemuxOk : Bool
  fixReencOk : Bool

/-- The `quickFixVideo` escalation: remux-copy first; on its failure (or verification
failure) the minimal re-encode; error if both fail. -/
def quickFixVideoModel (env : SplitExecEnv) : FixOutcome :=
  if env.fixRemuxOk then .remuxed
  else if env.fixReencOk then .reencoded
  else .failed

/-- Run a variant list in order, stopping at the first clean exit; returns
the list of variants actually invoked and whether one succeeded. -/
def firstSuccess (ok : SplitVariant → Bool) :
    List SplitVariant → List SplitVariant × Bool
  | [] => ([], false)
  | v :: rest =>
    if ok v then ([v], true)
    else
      let r := firstSuccess ok rest
      (v :: r.1, r.2)

/-- The `splitOneSegment` retry (`alias_utils.js` lines 135–224): try the primary
variants in order, first clean exit wins; after exhausting them, run
`quickFixVideo` and retry the fixed variant list against the repaired
file; surface failure only after those too are exhausted (or the fix
itself fails).  Returns the invocation trace and the overall result. -/
def splitOneSegmentModel (fastSplitCopy fastSeekFirst : Bool)
    (env : SplitExecEnv) : List (SplitInput × SplitVariant) × Bool :=
  let p := firstSuccess (env.runOk .original)
    (primaryVariants fastSplitCopy fastSeekFirst)
  if p.2 then (p.1.map (fun v => (SplitInput.original, v)), true)
  else
    match quickFixVideoModel env with
    | .failed => (p.1.map (fun v => (SplitInput.original, v)), false)
    | _ =>
      let q := firstSuccess (env.runOk .repaired)
        (fixedVariants fastSplitCopy fastSeekFirst)
      (p.1.map (fun v => (SplitInput.original, v)) ++
        q.1.map (fun v => (SplitInput.repaired, v)), q.2)

/-- If every variant of the list fails, all of them are invoked and the
pass fails. -/
theorem firstSuccess_false (ok : SplitVariant → Bool) (l : List SplitVariant)
    (h : ∀ v ∈ l, ok v = false) : firstSuccess ok l = (l, false) := by
  induction l with
  | nil => rfl
  | cons v rest ih =>
    have hv : ok v = false := h v (List.mem_cons_self v rest)
    have hrest := ih (fun u hu => h u (List.mem_cons_of_mem v hu))
    simp [firstSuccess, hv, hrest]

/-- The pass succeeds iff some variant of the list succeeds. -/
theorem firstSuccess_true_iff (ok : SplitVariant → Bool) (l : List SplitVariant) :
    (firstSuccess ok l).2 = true ↔ ∃ v ∈ l, ok v = true := by
  induction l with
  | nil => simp [firstSuccess]
  | cons v rest ih =>
    by_cases hv : ok v = true
    · simp [firstSuccess, hv]
    · simp only [Bool.not_eq_true] at hv
      simp [firstSuccess, hv, ih]

/-- A successful pass invoked an in-order prefix of the list: every variant
before the first clean exit failed, and no variant after it was invoked. -/
theorem firstSuccess_trace_of_true (ok : SplitVariant → Bool) :
    ∀ l : List SplitVariant, (firstSuccess ok l).2 = true →
      ∃ t v, (firstSuccess ok l).1 = t ++ [v] ∧ ok v = true ∧
        (∀ u ∈ t, ok u = false) ∧ t ++ [v] = l.take (t.length + 1) := by
  intro l
  induction l with
  | nil => intro h; simp [firstSuccess] at h
  | cons v rest ih =>
    intro h
    by_cases hv : ok v = true
    · exact ⟨[], v, by simp [firstSuccess, hv], hv, by simp, by simp⟩
    · simp only [Bool.not_eq_true] at hv
      have h' : (firstSuccess ok rest).2 = true := by
        simpa [firstSuccess, hv] using h
      obtain ⟨t, w, ht, hw, hall, htake⟩ := ih h'
      refine ⟨v :: t, w, ?_, hw, ?_, ?_⟩
      · simp [firstSuccess, hv, ht]
      · intro u hu
        rcases List.mem_cons.mp hu with rfl | hu
        · exact hv
        · exact hall u hu
      · simp only [List.length_cons, List.cons_append, List.take_succ_cons]
        rw [← htake]

/-- C8 as amended: the primary variants run strictly in order with the
first clean exit winning and nothing further invoked; `quickFixVideo`
(remux-copy before minimal re-encode) runs only after every primary
variant failed; the retry against the repaired file then runs, in order
and first-success-first, the variant list *minus the `-to` variant `C`*
(not the full list), and failure is surfaced only after that retry is also
exhausted. -/
theorem splitOneSegment_retry_structure (ffc ffs : Bool) (env : SplitExecEnv) :
    (fixedVariants ffc ffs =
      (primaryVariants ffc ffs).filter (fun v => v != SplitVariant.varC)) ∧
    ((∃ v ∈ primaryVariants ffc ffs, env.runOk .original v = true) →
      (splitOneSegmentModel ffc ffs env).2 = true ∧
      ∃ t v, (splitOneSegmentModel ffc ffs env).1 =
          (t ++ [v]).map (fun u => (SplitInput.original, u)) ∧
        env.runOk .original v = true ∧ (∀ u ∈ t, env.runOk .original u = false) ∧
        t ++ [v] = (primaryVariants ffc ffs).take (t.length + 1)) ∧
    ((∀ v ∈ primaryVariants ffc ffs, env.runOk .original v = false) →
      quickFixVideoModel env = .failed →
      (splitOneSegmentModel ffc ffs env).1 =
        (primaryVariants ffc ffs).map (fun u => (SplitInput.original, u)) ∧
      (splitOneSegmentModel ffc ffs env).2 = false) ∧
    ((∀ v ∈ primaryVariants ffc ffs, env.runOk .original v = false) →
      quickFixVideoModel env ≠ .failed →
      (splitOneSegmentModel ffc ffs env).1 =
        (primaryVariants ffc ffs).map (fun u => (SplitInput.original, u)) ++
          (firstSuccess (env.runOk .repaired) (fixedVariants ffc ffs)).1.map
            (fun u => (SplitInput.repaired, u)) ∧
      ((splitOneSegmentModel ffc ffs env).2 = true ↔
        ∃ v ∈ fixedVariants ffc ffs, env.runOk .repaired v = true)) ∧
    (env.fixRemuxOk = true → quickFixVideoModel env = .remuxed) ∧
    (env.fixRemuxOk = false → env.fixReencOk = true →
      quickFixVideoModel env = .reencoded) := by
  refine ⟨?_, ?_, ?_, ?_, ?_, ?_⟩
  · cases ffc <;> cases ffs <;> decide
  · intro hex
    have hp2 : (firstSuccess (env.runOk .original) (primaryVariants ffc ffs)).2 = true :=
      (firstSuccess_true_iff _ _).mpr hex
    obtain ⟨t, v, ht, hv, hall, htake⟩ :=
      firstSuccess_trace_of_true (env.runOk .original) (primaryVariants ffc ffs) hp2
    refine ⟨by simp [splitOneSegmentModel, hp2], t, v, ?_, hv, hall, htake⟩
    simp [splitOneSegmentModel, hp2, ht]
  · intro hall hfix
    have hp := firstSuccess_false (env.runOk .original) (primaryVariants ffc ffs) hall
    constructor <;> simp [splitOneSegmentModel, hp, hfix]
  · intro hall hfix
    have hp := firstSuccess_false (env.runOk .original) (primaryVariants ffc ffs) hall
    cases hq : quickFixVideoModel env with
    | failed => exact absurd hq hfix
    | remuxed =>
      constructor
      · simp [splitOneSegmentModel, hp, hq]
      · rw [← firstSuccess_true_iff (env.runOk .repaired) (fixedVariants ffc ffs)]
        simp [splitOneSegmentModel, hp, hq]
    | reencoded =>
      constructor
      · simp [splitOneSegmentModel, hp, hq]
      · rw [← firstSuccess_true_iff (env.runOk .repaired) (fixedVariants ffc ffs)]
        simp [splitOneSegmentModel, hp, hq]
  · intro h
    simp [quickFixVideoModel, h]
  · intro h1 h2
    simp [quickFixVideoModel, h1, h2]

/-- Every ffmpeg invocation fails; the quick-fix remux succeeds. -/
def allFailEnv : SplitExecEnv :=
  { runOk := fun _ _ => false, fixRemuxOk := true, fixReencOk := true }

/-- C8 counterexample: with the default configuration (`fastSplitCopy` and
`fastSeekFirst` both unset) and every invocation failing, the retry
against the repaired input runs only variants `A, B` — the `-to` variant
`C` is never invoked on the repaired file, so the retried list is not the
full variant list the claim states. -/
theorem splitOneSegment_fixedRetry_skips_varC :
    (splitOneSegmentModel false false allFailEnv).1 =
      [(.original, .varA), (.original, .varB), (.original, .varC),
        (.repaired, .varA), (.repaired, .varB)] ∧
    (splitOneSegmentModel false false allFailEnv).1.contains
      (SplitInput.repaired, SplitVariant.varC) = false ∧
    ¬ (((splitOneSegmentModel false false allFailEnv).1.filter
          (fun pr => pr.1 == SplitInput.repaired)).map Prod.snd =
        primaryVariants false false) := by
  refine ⟨by decide, by decide, by decide⟩

/-- Every variant fails except `B` (on either input); no quick fix. -/
def varBOkEnv : SplitExecEnv :=
  { runOk := fun _ v => v == SplitVariant.varB,
    fixRemuxOk := false, fixReencOk := false }

/-- Witness for the amended C8: with only variant `B` succeeding, the cut
succeeds on the primary pass. -/
theorem splitOneSegment_retry_structure_witness :
    (splitOneSegmentModel false false varBOkEnv).2 = true :=
  ((splitOneSegment_retry_structure false false varBOkEnv).2.1
    ⟨SplitVariant.varB, by simp [primaryVariants], by decide⟩).1

/-! ## Checkpointed Enhancement Pipeline (src/unnamed/part_002) -/

/-- Contents a temp directory may hold from a prior fallback run: the
extracted frame files and, if `checkpoint.json` exists, the list of frames
recorded as done. -/
structure TmpContents where
  frames : List String
  checkpointDone : Option (List String)
deriving DecidableEq

/-- The fallback temp directory name (`part_002` line 621):
`.realesrgan_tmp_${Date.now()}` — it embeds the *current* timestamp. -/
def realesrganTmpName (now : ℕ) : String :=
  ".realesrgan_tmp_" ++ toString now

/-- Look up a temp directory by name in the pre-existing filesystem state
(`fs.pathExists` plus reads). -/
def lookupTmp (fsPrev : List (String × TmpContents)) (name : String) :
    Option TmpContents :=
  (fsPrev.find? (fun e => e.1 == name)).map (fun e => e.2)

/-- The pending-frame computation of `runEnhance`'s fallback (`part_002`
lines 620–662): the temp dir is named with the current `Date.now()`;
frames and audio are re-extracted unless `resume` holds *and* that very
directory already contains frames; the checkpoint is loaded from that same
directory if present; `pending` is the frames not marked done.
`videoFrames` is the frame set produced by extracting the whole video. -/
def runEnhancePendingFrames (resume : Bool) (now : ℕ)
    (fsPrev : List (String × TmpContents)) (videoFrames : List String) :
    List String :=
  let c := (lookupTmp fsPrev (realesrganTmpName now)).getD ⟨[], none⟩
  let haveFrames := ¬ c.frames.isEmpty
  let frameFiles := if resume ∧ haveFrames then c.frames else videoFrames
  let ckpt := if resume then c.checkpointDone.getD [] else []
  frameFiles.filter (fun f => ¬ ckpt.contains f)

/-- The three frames of the C4 failing video. -/
def c4Frames : List String :=
  ["frame_000001.png", "frame_000002.png", "frame_000003.png"]

/-- Filesystem state left by the interrupted prior run: its temp directory
(made at timestamp 1000) holds all three extracted frames and a checkpoint
marking frame 1 done. -/
def c4PrevFs : List (String × TmpContents) :=
  [(realesrganTmpName 1000,
    { frames := c4Frames, checkpointDone := some ["frame_000001.png"] })]

/-- C4 (code bug): a prior fallback run at timestamp 1000 completed
`k = 1` of `n = 3` frames and was interrupted.  Re-running with
`resume = true` at timestamp 2000 builds a *new* temp directory name, so
the prior frames and checkpoint are never found: extraction re-runs and
all 3 frames are pending again, not the claimed `n − k = 2`.  Had the
re-run used the prior directory name (timestamp 1000), exactly 2 frames
would be pending — the resume logic itself is sound, only unreachable. -/
theorem runEnhance_resume_reprocesses_all_frames :
    runEnhancePendingFrames true 2000 c4PrevFs c4Frames = c4Frames ∧
    (runEnhancePendingFrames true 2000 c4PrevFs c4Frames).length = 3 ∧
    ¬ ((runEnhancePendingFrames true 2000 c4PrevFs c4Frames).length = 3 - 1) ∧
    (runEnhancePendingFrames true 1000 c4PrevFs c4Frames).length = 3 - 1 ∧
    realesrganTmpName 2000 ≠ realesrganTmpName 1000 := by
  refine ⟨by decide, by decide, by decide, by decide, by decide⟩

/-! ### C10: single-frame failures are recovered locally -/

/-- State threaded through the frame workers: the checkpoint's done set and
the produced outputs — `(f, true)` an upscaled frame, `(f, false)` the
original frame copied over after a failed invocation. -/
structure WorkerState where
  checkpointDone : List String
  outputs : List (String × Bool)
deriving DecidableEq

/-- One iteration of `worker` (`part_002` lines 666–690) on frame `f`:
invoke the upscaler; on a non-zero exit or a thrown error, copy the
original frame to the output instead; in either case mark the frame done
in the checkpoint and continue with the next pending frame. -/
def workerStep (upscaleOk : String → Bool) (st : WorkerState) (f : String) :
    WorkerState :=
  { checkpointDone := f :: st.checkpointDone
    outputs := (f, upscaleOk f) :: st.outputs }

/-- The worker pool draining the shared pending list (each frame is pulled
exactly once via the shared `idx`; the per-frame step is the same whichever
worker runs it, so the pool is modelled by folding the step over the
pending list), starting from the loaded checkpoint. -/
def workerRun (upscaleOk : String → Bool) (pending : List String)
    (ckpt0 : List String) : WorkerState :=
  pending.foldl (workerStep upscaleOk) { checkpointDone := ckpt0, outputs := [] }

/-- Folding the worker step only ever adds to the checkpoint and outputs,
processes every pending frame, and produces one output per frame. -/
theorem workerFold_spec (upscaleOk : String → Bool) :
    ∀ (pending : List String) (st : WorkerState),
      (∀ f ∈ st.checkpointDone,
        f ∈ (pending.foldl (workerStep upscaleOk) st).checkpointDone) ∧
      (∀ p ∈ st.outputs, p ∈ (pending.foldl (workerStep upscaleOk) st).outputs) ∧
      (∀ f ∈ pending,
        f ∈ (pending.foldl (workerStep upscaleOk) st).checkpointDone) ∧
      (∀ f ∈ pending,
        (f, upscaleOk f) ∈ (pending.foldl (workerStep upscaleOk) st).outputs) ∧
      (pending.foldl (workerStep upscaleOk) st).outputs.length =
        st.outputs.length + pending.length := by
  intro pending
  induction pending with
  | nil => intro st; simp
  | cons f rest ih =>
    intro st
    simp only [List.foldl_cons]
    obtain ⟨ih1, ih2, ih3, ih4, ih5⟩ := ih (workerStep upscaleOk st f)
    refine ⟨?_, ?_, ?_, ?_, ?_⟩
    · intro g hg
      exact ih1 g (by simp [workerStep, hg])
    · intro p hp
      exact ih2 p (by simp [workerStep, hp])
    · intro g hg
      rcases List.mem_cons.mp hg with rfl | hg
      · exact ih1 g (by simp [workerStep])
      · exact ih3 g hg
    · intro g hg
      rcases List.mem_cons.mp hg with rfl | hg
      · exact ih2 _ (by simp [workerStep])
      · exact ih4 g hg
    · rw [ih5]
      simp [workerStep]
      omega

/-- C10: whatever subset of upscaler invocations fails, every pending
frame receives an output — the upscaled frame on success, a copy of the
original on failure — and is marked done; the whole job never aborts (one
output per pending frame is always produced), and checkpoint entries are
only ever added, never removed. -/
theorem worker_frameFailure_recovered (upscaleOk : String → Bool)
    (pending : List String) (ckpt0 : List String) :
    (∀ f ∈ pending, f ∈ (workerRun upscaleOk pending ckpt0).checkpointDone) ∧
    (∀ f ∈ ckpt0, f ∈ (workerRun upscaleOk pending ckpt0).checkpointDone) ∧
    (∀ f ∈ pending, (f, upscaleOk f) ∈ (workerRun upscaleOk pending ckpt0).outputs) ∧
    (workerRun upscaleOk pending ckpt0).outputs.length = pending.length := by
  obtain ⟨h1, h2, h3, h4, h5⟩ := workerFold_spec upscaleOk pending
    { checkpointDone := ckpt0, outputs := [] }
  refine ⟨h3, h1, h4, ?_⟩
  rw [workerRun, h5]
  simp

/-- The upscaler succeeds only on frame 1. -/
def c10UpscaleOk : String → Bool := fun f => f == "frame_000001.png"

/-- Witness for C10: frame 2's invocation fails, yet it still gets an
output (the copied original) and is marked done. -/
theorem worker_frameFailure_recovered_witness :
    ("frame_000002.png", false) ∈
      (workerRun c10UpscaleOk ["frame_000001.png", "frame_000002.png"] []).outputs ∧
    "frame_000002.png" ∈
      (workerRun c10UpscaleOk ["frame_000001.png", "frame_000002.png"] []).checkpointDone := by
  have h := worker_frameFailure_recovered c10UpscaleOk
    ["frame_000001.png", "frame_000002.png"] []
  have hok : c10UpscaleOk "frame_000002.png" = false := by decide
  constructor
  · have := h.2.2.1 "frame_000002.png" (by simp)
    rwa [hok] at this
  · exact h.1 "frame_000002.png" (by simp)

end VideoCutTool
